import Mathlib

/-!
Verification development for the highway plot-sheet / linear-referencing
engine (`highwaype`): a shallow embedding of the route calculators
(`modules/device_layout.py`), the auto-plotter's chainage parsing,
formatting and frame tiling (`io/dxf_handler.py`), and the frame
renumbering reading-order sort (`modules/frame_numbering.py`).

Python floats are idealised as exact numbers: the purely arithmetical
code paths (chainage parsing/formatting, frame ranges, reading-order
sort) are embedded over `ℚ` and stay executable; the geometric code
paths (Euclidean distances, square roots, angles) are embedded over `ℝ`.
Python strings are embedded as `List Char`.
-/

namespace HighwayPE

/-! ## Python string primitives (embedded as lists of characters) -/

/-- A Python string, embedded as its list of characters. -/
abbrev PStr := List Char

/-- Embeds Python `str.upper()` (ASCII case mapping suffices for the
strings this program manipulates). -/
def pyUpper (s : PStr) : PStr := s.map Char.toUpper

/-- Embeds the Python membership test `c in s` for a single character. -/
def containsC (c : Char) (s : PStr) : Bool := s.any (· == c)

/-- Embeds Python `str.split(sep)` for a one-character separator:
`"a+b".split('+') == ["a","b"]`, `"".split('+') == [""]`. -/
def splitOnC (sep : Char) : PStr → List PStr
  | [] => [[]]
  | c :: rest =>
    match splitOnC sep rest with
    | [] => if c = sep then [[], []] else [[c]]
    | h :: t => if c = sep then [] :: h :: t else (c :: h) :: t

/-- The decimal digit character for `d < 10` (used to embed Python's
decimal rendering of integers). -/
def digitChar (d : ℕ) : Char :=
  match d with
  | 0 => '0' | 1 => '1' | 2 => '2' | 3 => '3' | 4 => '4'
  | 5 => '5' | 6 => '6' | 7 => '7' | 8 => '8' | 9 => '9'
  | _ => '*'

/-- Numeric value of a decimal digit character. -/
def digitVal (c : Char) : ℕ :=
  match c with
  | '0' => 0 | '1' => 1 | '2' => 2 | '3' => 3 | '4' => 4
  | '5' => 5 | '6' => 6 | '7' => 7 | '8' => 8 | '9' => 9
  | _ => 0

/-- Numeric value of a digit string (the accumulator loop underlying
`int` / `float` on plain digit strings). -/
def digitsToNat (s : PStr) : ℕ := s.foldl (fun a c => 10 * a + digitVal c) 0

/-- Decimal digits of `n`, most significant first; `fuel`-structured so
that the kernel can evaluate it. -/
def natCharsAux : ℕ → ℕ → PStr
  | 0, _ => []
  | _, 0 => []
  | fuel + 1, n => natCharsAux fuel (n / 10) ++ [digitChar (n % 10)]

/-- Embeds Python's decimal rendering `str(n)` / `f"{n}"` of a
non-negative integer. -/
def natChars (n : ℕ) : PStr := if n = 0 then ['0'] else natCharsAux n n

/-- Embeds Python's decimal rendering of an `int` (with a sign for
negative values). -/
def intChars (z : ℤ) : PStr :=
  if z < 0 then '-' :: natChars z.natAbs else natChars z.toNat

/-- Embeds the Python format specifier `{:03d}` applied to an already
rendered value: left-pad with zeros to width 3. -/
def padZeros3 (s : PStr) : PStr := List.replicate (3 - s.length) '0' ++ s

/-- Embeds Python `int(s)` on the unsigned digit strings reachable in
this program (chainage labels); a malformed string raises, embedded as
`none`. -/
def pyIntParse (s : PStr) : Option ℤ :=
  if s ≠ [] ∧ s.all Char.isDigit then some (digitsToNat s : ℤ) else none

/-- Embeds Python `float(s)` on the plain unsigned decimal literals
reachable in this program (chainage labels such as `"500"` or
`"94.5"`); a malformed string raises, embedded as `none`. -/
def pyFloatParse (s : PStr) : Option ℚ :=
  match splitOnC '.' s with
  | [a] => if a ≠ [] ∧ a.all Char.isDigit then some (digitsToNat a : ℚ) else none
  | [a, b] =>
    if a ≠ [] ∧ a.all Char.isDigit ∧ b.all Char.isDigit then
      some ((digitsToNat a : ℚ) + (digitsToNat b : ℚ) / (10 ^ b.length))
    else none
  | _ => none

/-- Embeds Python `round(q)` (banker's rounding, half to even) on an
exact value. -/
def pyRound (q : ℚ) : ℤ :=
  let f : ℤ := ⌊q⌋
  if q - f < 1 / 2 then f
  else if (1 : ℚ) / 2 < q - f then f + 1
  else if f % 2 = 0 then f else f + 1

/-- Embeds Python `int(q)` on a number: truncation toward zero. -/
def pyTrunc (q : ℚ) : ℤ := if 0 ≤ q then ⌊q⌋ else -⌊-q⌋

/-- Embeds Python `a // b` on numbers (floor division). -/
def pyFloorDiv (a b : ℚ) : ℚ := (⌊a / b⌋ : ℤ)

/-- Embeds Python `a % b` on numbers. -/
def pyMod (a b : ℚ) : ℚ := a - b * (⌊a / b⌋ : ℤ)

/-! ## dxf_handler.AutoPlotter: chainage parsing and formatting -/

/-- Embeds `AutoPlotter._parse_station_to_m`: strip `K` (after
upper-casing), split on `+` into `int(parts[0])*1000 + float(parts[1])`,
else `float(clean)`; any exception falls back to `0.0`. -/
def parseStationToM (pk : PStr) : ℚ :=
  let clean := (pyUpper pk).filter (fun c => !(c == 'K'))
  if containsC '+' clean then
    match splitOnC '+' clean with
    | p0 :: p1 :: _ =>
      match pyIntParse p0, pyFloatParse p1 with
      | some km, some m => (km : ℚ) * 1000 + m
      | _, _ => 0
    | _ => 0
  else (pyFloatParse clean).getD 0

/-- Embeds `AutoPlotter._format_m_to_station`: round to `precision`,
split into kilometres and metres, render as `K<km>+<m:03d>`. -/
def formatMToStation (meters : ℚ) (precision : ℚ) : PStr :=
  let roundedM : ℚ := (pyRound (meters / precision) : ℤ) * precision
  let km : ℤ := pyTrunc (pyFloorDiv roundedM 1000)
  let m : ℤ := pyTrunc (pyMod roundedM 1000)
  'K' :: intChars km ++ '+' :: padZeros3 (intChars m)

/-! ## dxf_handler.AutoPlotter: frame tiling

`calculate_frames` touches the route only through `total_length` and
`get_info_at(current_dist)`; the value returned by `get_info_at` (the
frame's centre point and tangent angle) is carried opaquely as a type
parameter `α`, since the station-range logic never inspects it. -/

/-- The `AutoPlotter.__init__` configuration: the four
`standard_frame_margins` and the plotting `scale`; paper size is fixed
to A3 (420×297) and the overlap fraction to `0.1` as in the source. -/
structure PlotCfg where
  m0 : ℚ
  m1 : ℚ
  m2 : ℚ
  m3 : ℚ
  scale : ℚ

/-- `paper_width - margins[1] - margins[3]` from `AutoPlotter.__init__`. -/
def viewportWidth (c : PlotCfg) : ℚ := 420 - c.m1 - c.m3

/-- One entry of the list built by `calculate_frames`; `geo` carries the
opaque `route.get_info_at(current_dist)` payload (centre, rotation). -/
structure PlotFrame (α : Type) where
  name : PStr
  geo : α
  scaleD : ℚ
  startVal : ℚ
  endVal : ℚ
  startLabel : PStr
  endLabel : PStr
  deriving DecidableEq

/-- The `while current_dist < route.total_length` loop of
`calculate_frames`, with explicit fuel (`none` = the loop was still
running when the fuel ran out, in particular a non-terminating loop
yields `none` at every fuel). -/
def framesLoop {α : Type} (info : ℚ → α) (L mw step base scl : ℚ) :
    ℕ → ℚ → ℕ → Option (List (PlotFrame α))
  | 0, _, _ => none
  | fuel + 1, cur, idx =>
    if cur < L then
      let g := info cur
      let rs := max 0 (cur - mw / 2)
      let re := min L (cur + mw / 2)
      let fr : PlotFrame α :=
        ⟨['平', '面', '图'] ++ padZeros3 (natChars idx), g, scl, base + rs, base + re,
          formatMToStation (base + rs) 10, formatMToStation (base + re) 10⟩
      if L ≤ re then some [fr]
      else (framesLoop info L mw step base scl fuel (cur + step) (idx + 1)).map (fr :: ·)
    else some []

/-- Embeds `AutoPlotter.calculate_frames(route, start_PK)`:
`model_width = viewport_width*scale/1000`, `step = model_width*(1-0.1)`,
first centre at `model_width/2`, frame indices from 1. -/
def calculateFrames {α : Type} (c : PlotCfg) (info : ℚ → α) (L : ℚ) (startPK : PStr)
    (fuel : ℕ) : Option (List (PlotFrame α)) :=
  let mw := viewportWidth c * c.scale / 1000
  let step := mw * (1 - 1 / 10)
  let base := parseStationToM startPK
  framesLoop info L mw step base c.scale fuel (mw / 2) 1

/-- The default start chainage string `"K0+000"`. -/
def strK0 : PStr := ['K', '0', '+', '0', '0', '0']

/-! ## frame_numbering.FrameAutoNumberer

The DXF model space is embedded as a list of entities; a block reference
(`INSERT`) carries its insertion point and its attribute list, any other
entity is opaque.  List position stands for entity identity (Python
mutates the entity object held by both the model space and the sorted
list). -/

/-- One `ATTRIB` of an `INSERT`: its tag and its text. -/
structure DxfAttrib where
  tag : PStr
  text : PStr
  deriving DecidableEq

/-- A model-space entity: an `INSERT` with insertion point and
attributes, or any other entity (opaque payload). -/
inductive DxfEntity where
  | insertE (pos : ℚ × ℚ) (attribs : List DxfAttrib)
  | otherE (payload : ℕ)
  deriving DecidableEq

/-- The check `attrib.dxf.tag.upper() == 'TUNO'`. -/
def isTunoTag (a : DxfAttrib) : Bool := pyUpper a.tag == ['T', 'U', 'N', 'O']

/-- Insertion-point X of an entity (0 for non-inserts, which never reach
the code paths that read it). -/
def entityX : DxfEntity → ℚ
  | .insertE pos _ => pos.1
  | .otherE _ => 0

/-- Insertion-point Y of an entity. -/
def entityY : DxfEntity → ℚ
  | .insertE pos _ => pos.2
  | .otherE _ => 0

/-- Insertion point of an entity. -/
def entityPos : DxfEntity → ℚ × ℚ
  | .insertE pos _ => pos
  | .otherE _ => (0, 0)

/-- The filter of `_get_sorted_frames`: keep `INSERT` entities with a
non-empty attribute list containing a `TUNo` tag (case-insensitive),
and — when `x_restrict` is given — insertion X strictly greater than it. -/
def isFrameCandidate (xr : Option ℚ) : DxfEntity → Bool
  | .insertE pos ats =>
    ats.length != 0 && ats.any isTunoTag &&
      (match xr with
       | none => true
       | some r => decide (r < pos.1))
  | .otherE _ => false

/-- Entities paired with their model-space position, starting at `i`. -/
def enumFrom {α : Type} (i : ℕ) : List α → List (ℕ × α)
  | [] => []
  | a :: as => (i, a) :: enumFrom (i + 1) as

/-- The `valid_frames` collection loop of `_get_sorted_frames`: indexed
entities passing the filter, in model-space order. -/
def selectFrames (doc : List DxfEntity) (xr : Option ℚ) : List (ℕ × DxfEntity) :=
  (enumFrom 0 doc).filter (fun p => isFrameCandidate xr p.2)

/-- Stable insertion used to embed Python's stable `list.sort(key=...)`:
the new element goes after every already placed element `y` with
`le y x`. -/
def insertByLe {α : Type} (le : α → α → Bool) (x : α) : List α → List α
  | [] => [x]
  | y :: ys => if le y x then y :: insertByLe le x ys else x :: y :: ys

/-- Stable sort (insertion sort, processing the input left to right);
for a total preorder `le` this coincides with Python's stable
`list.sort`. -/
def stableSortBy {α : Type} (le : α → α → Bool) (l : List α) : List α :=
  l.foldl (fun acc x => insertByLe le x acc) []

/-- Key order of `valid_frames.sort(key=lambda e: e.dxf.insert.y,
reverse=True)`: `a` may stay before `b` iff `b`'s Y does not exceed
`a`'s. -/
def byDescY (a b : ℕ × DxfEntity) : Bool := decide (entityY b.2 ≤ entityY a.2)

/-- Key order of `current_row.sort(key=lambda e: e.dxf.insert.x)`. -/
def byAscX (a b : ℕ × DxfEntity) : Bool := decide (entityX a.2 ≤ entityX b.2)

/-- The row-grouping loop of `_get_sorted_frames`: an entity joins the
current row iff its Y is within `tol` of the Y of the row's first
entity; a completed row is flushed sorted by ascending X. -/
def rowsGo (tol : ℚ) (row : List (ℕ × DxfEntity)) :
    List (ℕ × DxfEntity) → List (ℕ × DxfEntity)
  | [] => stableSortBy byAscX row
  | f :: rest =>
    let lastY := entityY (row.headD (0, .otherE 0)).2
    if |lastY - entityY f.2| ≤ tol then rowsGo tol (row ++ [f]) rest
    else stableSortBy byAscX row ++ rowsGo tol [f] rest

/-- The full reading-order sort of `_get_sorted_frames` applied to an
already filtered list: sort by descending Y, then group into rows and
flush each row by ascending X. -/
def readingOrder (l : List (ℕ × DxfEntity)) (tol : ℚ) : List (ℕ × DxfEntity) :=
  match stableSortBy byDescY l with
  | [] => []
  | f :: rest => rowsGo tol [f] rest

/-- Embeds `FrameAutoNumberer._get_sorted_frames`. -/
def sortedFrames (doc : List DxfEntity) (xr : Option ℚ) (tol : ℚ) :
    List (ℕ × DxfEntity) :=
  readingOrder (selectFrames doc xr) tol

/-- Rewrites the text of the first `TUNo`-tagged attribute (the
`for attrib in entity.attribs: ... break` lookup of
`renumber_and_save`); `none` when the entity has no such attribute. -/
def updateFirstTuno (txt : PStr) : List DxfAttrib → Option (List DxfAttrib)
  | [] => none
  | a :: as =>
    if isTunoTag a then some (⟨a.tag, txt⟩ :: as)
    else (updateFirstTuno txt as).map (a :: ·)

/-- Applies `updateFirstTuno` inside an entity; non-inserts have no
attributes. -/
def setTunoText (txt : PStr) : DxfEntity → Option DxfEntity
  | .insertE pos ats => (updateFirstTuno txt ats).map (.insertE pos)
  | .otherE _ => none

/-- The `has_tuno` scan of `_get_sorted_frames`: whether the entity has
a `TUNo`-tagged attribute. -/
def hasTunoE : DxfEntity → Bool
  | .insertE _ ats => ats.any isTunoTag
  | .otherE _ => false

/-- The `for idx, entity in enumerate(sorted_entities, start=1)` loop of
`renumber_and_save`: writes `str(idx)` into each entity's `TUNo`
attribute (mutation embedded as `List.set` at the entity's model-space
position) and counts the entities actually rewritten. -/
def renumGo : ℕ → ℕ → List DxfEntity → List (ℕ × DxfEntity) → ℕ × List DxfEntity
  | _, cnt, d, [] => (cnt, d)
  | idx, cnt, d, (i, e) :: rest =>
    match setTunoText (natChars idx) e with
    | some e2 => renumGo (idx + 1) (cnt + 1) (d.set i e2) rest
    | none => renumGo (idx + 1) cnt d rest

/-- Embeds `FrameAutoNumberer.renumber_and_save` (the file save is
external I/O): returns the count of rewritten frames and the updated
model space. -/
def renumberAndSave (doc : List DxfEntity) (xr : Option ℚ) (tol : ℚ) :
    ℕ × List DxfEntity :=
  renumGo 1 0 doc (sortedFrames doc xr tol)

/-- Modelled from the claim's reading of `renumber_and_save` (the
specification side of C10): position `j` of the model space is rewritten
with `str(k+1)` exactly when `j` appears at rank `k` of the sorted frame
list, every other position is untouched. -/
def rankIn (sf : List (ℕ × DxfEntity)) (j : ℕ) : Option ℕ :=
  match sf with
  | [] => none
  | p :: rest => if p.1 = j then some 0 else (rankIn rest j).map (· + 1)

/-- Modelled from the claim's reading of `renumber_and_save` (the
specification side of C10): the per-position description of the
resulting model space. -/
def specRenumDoc (doc : List DxfEntity) (sf : List (ℕ × DxfEntity)) : List DxfEntity :=
  (enumFrom 0 doc).map (fun p =>
    match rankIn sf p.1 with
    | some k => (setTunoText (natChars (k + 1)) p.2).getD p.2
    | none => p.2)

/-! ## device_layout.py: geometry over ℝ

`ezdxf` vectors are embedded as pairs of reals; `Vec2.distance`,
`Vec3.magnitude_xy` and `Vec2.angle` are embedded with `Real.sqrt` and
an explicit `atan2`. -/

noncomputable section

/-- A 2D point / vector (`ezdxf` `Vec2`, or the xy-part of a `Vec3`). -/
abbrev Pt := ℝ × ℝ

/-- Vector difference `a - b`. -/
def psub (a b : Pt) : Pt := (a.1 - b.1, a.2 - b.2)

/-- Vector sum. -/
def padd (a b : Pt) : Pt := (a.1 + b.1, a.2 + b.2)

/-- Scalar multiple `v * t` (ezdxf `Vec2.__mul__`). -/
def pscale (v : Pt) (t : ℝ) : Pt := (v.1 * t, v.2 * t)

/-- Dot product. -/
def dot2 (a b : Pt) : ℝ := a.1 * b.1 + a.2 * b.2

/-- 2D cross product `a.x*b.y - a.y*b.x`. -/
def cross2 (a b : Pt) : ℝ := a.1 * b.2 - a.2 * b.1

/-- Embeds `Vec2.distance` / `Vec3.distance` restricted to the plane. -/
def vdist (a b : Pt) : ℝ := Real.sqrt ((b.1 - a.1) ^ 2 + (b.2 - a.2) ^ 2)

/-- Embeds `ezdxf` `Vec3.magnitude_xy`: the LENGTH `sqrt(x²+y²)` of the
xy-projection (what `LegacyRouteCalculator.project_point` stores in its
variable `seg_len_sq`). -/
def magnitudeXY (v : Pt) : ℝ := Real.sqrt (v.1 ^ 2 + v.2 ^ 2)

/-- Embeds `math.atan2(y, x)` (also `Vec2.angle`). -/
def atan2R (y x : ℝ) : ℝ :=
  if 0 < x then Real.arctan (y / x)
  else if x < 0 then
    (if 0 ≤ y then Real.arctan (y / x) + Real.pi else Real.arctan (y / x) - Real.pi)
  else if 0 < y then Real.pi / 2
  else if y < 0 then -(Real.pi / 2)
  else 0

/-- Embeds `Vec2.angle`. -/
def vangle (v : Pt) : ℝ := atan2R v.2 v.1

/-- Embeds `Vec2.lerp` / `Vec3.lerp`: `a + r*(b-a)`. -/
def vlerp (a b : Pt) (r : ℝ) : Pt := padd a (pscale (psub b a) r)

/-- The `"Center"` / `"左幅外侧"` (left) / `"右幅外侧"` (right) strings
returned by the projection queries. -/
inductive RoadSide where
  | center
  | left
  | right
  deriving DecidableEq

/-! ### LegacyRouteCalculator (arc-length mode) -/

/-- One segment dictionary of `LegacyRouteCalculator.__init__`:
`{'p1','p2','len','start_dist','vec'}`. -/
structure LegacySeg where
  p1 : Pt
  p2 : Pt
  vec : Pt
  len : ℝ
  startDist : ℝ

/-- The segment-building loop of `LegacyRouteCalculator.__init__`
starting from vertex `prev` at cumulative station `acc`. -/
def legacySegsFrom (prev : Pt) (acc : ℝ) : List Pt → List LegacySeg
  | [] => []
  | c :: rest =>
    let l := vdist prev c
    ⟨prev, c, psub c prev, l, acc⟩ :: legacySegsFrom c (acc + l) rest

/-- Embeds the `self.segments` field built by
`LegacyRouteCalculator.__init__` from the flattened vertex list. -/
def legacySegments : List Pt → List LegacySeg
  | [] => []
  | v :: vs => legacySegsFrom v 0 vs

/-- The cumulative-station tail of `self.dists` after the initial `0.0`. -/
def cumDistsFrom (prev : Pt) (acc : ℝ) : List Pt → List ℝ
  | [] => []
  | c :: rest =>
    let l := acc + vdist prev c
    l :: cumDistsFrom c l rest

/-- Embeds the `self.dists` list (`[0.0]` plus cumulative stations) of
both route calculators built on flattened vertices. -/
def cumDists : List Pt → List ℝ
  | [] => [0]
  | v :: vs => 0 :: cumDistsFrom v 0 vs

/-- The running state of `LegacyRouteCalculator.project_point`:
`best_station`, `min_dist` (`none` embeds the initial `float('inf')`)
and `best_side`. -/
structure ProjRes where
  station : ℝ
  minDist : Option ℝ
  side : RoadSide

/-- The initial projection state `(0.0, inf, "Center")`. -/
def initProj : ProjRes := ⟨0, none, .center⟩

/-- The comparison `dist < min_dist` against the possibly-infinite
current minimum. -/
def ltInf (d : ℝ) : Option ℝ → Prop
  | none => True
  | some m => d < m

instance (d : ℝ) (m : Option ℝ) : Decidable (ltInf d m) :=
  match m with
  | none => .isTrue trivial
  | some v => inferInstanceAs (Decidable (d < v))

/-- One iteration of the `for seg in self.segments` loop of
`LegacyRouteCalculator.project_point`.  Note the source divides the dot
product by `vec_seg.magnitude_xy` (the 2D LENGTH, despite the comment
`t = (AP · AB) / |AB|^2` and the variable name `seg_len_sq`). -/
def legacyStep (target : Pt) (st : ProjRes) (seg : LegacySeg) : ProjRes :=
  let segLenSq := magnitudeXY seg.vec
  if segLenSq = 0 then st
  else
    let vecPt := psub target seg.p1
    let t := dot2 vecPt seg.vec / segLenSq
    let tClamped := max 0 (min 1 t)
    let projectedP := padd seg.p1 (pscale seg.vec tClamped)
    let d := vdist target projectedP
    if ltInf d st.minDist then
      ⟨seg.startDist + tClamped * seg.len, some d,
        if 0 < cross2 seg.vec vecPt then .left else .right⟩
    else st

/-- Embeds `LegacyRouteCalculator.project_point`. -/
def legacyProjectPoint (segs : List LegacySeg) (target : Pt) : ProjRes :=
  segs.foldl (legacyStep target) initProj

/-- `legacyProjectPoint` restricted to segments of nonzero
`magnitude_xy` (the segments the legacy loop does not `continue` past). -/
def filterNonzeroSegs : List LegacySeg → List LegacySeg
  | [] => []
  | s :: rest =>
    if magnitudeXY s.vec = 0 then filterNonzeroSegs rest
    else s :: filterNonzeroSegs rest

/-! ### dxf_handler.RouteCalculator.get_info_at (forward query) -/

/-- The `for i, d in enumerate(self.dists): if d > target_dist: idx = i;
break` scan. -/
def breakIdx (t : ℝ) : List ℝ → ℕ → Option ℕ
  | [], _ => none
  | d :: ds, i => if t < d then some i else breakIdx t ds (i + 1)

/-- Embeds `RouteCalculator.get_info_at` of `io/dxf_handler.py` over the
flattened vertex list: clamp to the endpoints, otherwise interpolate
within the first segment whose cumulative end-station exceeds the
query. -/
def getInfoAt (verts : List Pt) (t : ℝ) : Pt × ℝ :=
  let dists := cumDists verts
  let total := dists.getLastD 0
  if total ≤ t then
    let p1 := verts.getD (verts.length - 2) (0, 0)
    let p2 := verts.getD (verts.length - 1) (0, 0)
    (p2, vangle (psub p2 p1))
  else if t ≤ 0 then
    let p1 := verts.getD 0 (0, 0)
    let p2 := verts.getD 1 (0, 0)
    (p1, vangle (psub p2 p1))
  else
    let idx := (breakIdx t dists 0).getD 0
    let pPrev := verts.getD (idx - 1) (0, 0)
    let pNext := verts.getD idx (0, 0)
    let dPrev := dists.getD (idx - 1) 0
    let dNext := dists.getD idx 0
    let ratio := (t - dPrev) / (dNext - dPrev)
    (vlerp pPrev pNext ratio, vangle (psub pNext pPrev))

/-! ### RouteCalculator (fixed-span mode) of device_layout.py -/

/-- The `start_PK` argument of `RouteCalculator.__init__`: a number or a
chainage string. -/
inductive PKInput where
  | num (q : ℚ)
  | str (s : PStr)

/-- Embeds `RouteCalculator.parse_pk_string`: numbers pass through;
strings are upper-cased, stripped of `K` and spaces, and read as
`float(a)*1000 + float(b)` around a `+`, else as a plain float; failures
fall back to `0.0`. -/
def parsePkString : PKInput → ℚ
  | .num q => q
  | .str s =>
    let clean := (pyUpper s).filter (fun c => !(c == 'K') && !(c == ' '))
    if containsC '+' clean then
      match splitOnC '+' clean with
      | p0 :: p1 :: _ =>
        match pyFloatParse p0, pyFloatParse p1 with
        | some a, some b => a * 1000 + b
        | _, _ => 0
      | _ => 0
    else (pyFloatParse clean).getD 0

/-- One segment dictionary of the fixed-span `RouteCalculator.__init__`:
`{'p1','p2','vec','len_sq','start_stat','logic_span'}`. -/
structure FixedSeg where
  p1 : Pt
  p2 : Pt
  vec : Pt
  lenSq : ℝ
  startStat : ℝ
  logicSpan : ℝ

/-- The `for i in range(len(raw_points) - 1)` segment construction:
`len_sq = vec.x*vec.x + vec.y*vec.y` (correctly squared here),
`start_stat = base_offset + i*100`, `logic_span = 100`. -/
def fixedSegs (base : ℝ) (raw : List Pt) : List FixedSeg :=
  (List.range (raw.length - 1)).map (fun i =>
    let pPrev := raw.getD i (0, 0)
    let pCurr := raw.getD (i + 1) (0, 0)
    let vec := psub pCurr pPrev
    ⟨pPrev, pCurr, vec, vec.1 * vec.1 + vec.2 * vec.2, base + (i : ℝ) * 100, 100⟩)

/-- The fixed-span route: segments plus
`total_length = segments[-1]['start_stat'] + 100.0`. -/
structure FixedRoute where
  segments : List FixedSeg
  totalLength : ℝ

/-- Embeds the fixed-span `RouteCalculator.__init__` on an extracted
vertex list (LWPOLYLINE points or LINE endpoints). -/
def mkFixedRoute (raw : List Pt) (startPK : PKInput) : FixedRoute :=
  let base : ℝ := (parsePkString startPK : ℚ)
  let segs := fixedSegs base raw
  ⟨segs, ((segs.getLast?).map FixedSeg.startStat).getD 0 + 100⟩

/-- The running state of the fixed-span
`RouteCalculator.project_point`; `vecPt` embeds the Python local
variable `vec_pt`, which is only (re)assigned on segments with
`len_sq ≠ 0` and keeps its previous value otherwise (`none` = never
assigned yet). -/
structure FProjState where
  station : ℝ
  minDist : Option ℝ
  side : RoadSide
  vecPt : Option Pt

/-- The initial fixed-span projection state. -/
def initFProj : FProjState := ⟨0, none, .center, none⟩

/-- One iteration of the fixed-span `project_point` loop.  A zero-length
segment is NOT skipped: `t_clamped = 0` and the segment competes for the
minimum; recording it reads `vec_pt`, which raises `UnboundLocalError`
(embedded as `none`) when no earlier segment assigned it. -/
def fixedStep (target : Pt) (st : FProjState) (seg : FixedSeg) : Option FProjState :=
  let tcvp : ℝ × Option Pt :=
    if seg.lenSq = 0 then (0, st.vecPt)
    else
      let vecPt := psub target seg.p1
      let t := dot2 vecPt seg.vec / seg.lenSq
      (max 0 (min 1 t), some vecPt)
  let projectedP := padd seg.p1 (pscale seg.vec tcvp.1)
  let d := vdist target projectedP
  if ltInf d st.minDist then
    match tcvp.2 with
    | none => none
    | some vecPt =>
      some ⟨seg.startStat + tcvp.1 * seg.logicSpan, some d,
        (if 0 < cross2 seg.vec vecPt then .left else .right), tcvp.2⟩
  else some { st with vecPt := tcvp.2 }

/-- Embeds the fixed-span `RouteCalculator.project_point`; `none` embeds
an uncaught Python exception. -/
def fixedProjectPoint (segs : List FixedSeg) (target : Pt) : Option FProjState :=
  segs.foldl (fun acc seg => acc.bind (fun st => fixedStep target st seg)) (some initFProj)

/-! ### DeviceLayoutEngine rotation lookups -/

/-- Embeds `DeviceLayoutEngine._get_layout_rotation`: the tangent angle
of the first segment whose station range contains the query, else
`0.0`. -/
def layoutRotationGo (s : ℝ) : List FixedSeg → ℝ
  | [] => 0
  | seg :: rest =>
    if seg.startStat ≤ s ∧ s ≤ seg.startStat + seg.logicSpan then vangle seg.vec
    else layoutRotationGo s rest

/-- The tangent-based rotation at a station of a fixed-span route. -/
def getLayoutRotation (r : FixedRoute) (s : ℝ) : ℝ := layoutRotationGo s r.segments

/-- One paper-space viewport as read by
`DeviceLayoutEngine.find_best_viewport_rotation`: view target point,
view height, view twist angle (degrees) and the paper-space
width/height of the viewport entity. -/
structure Viewport where
  center : Pt
  viewHeight : ℝ
  twistDeg : ℝ
  width : ℝ
  height : ℝ

/-- Embeds `Vec2.rotate`. -/
def rotateV (v : Pt) (ang : ℝ) : Pt :=
  (v.1 * Real.cos ang - v.2 * Real.sin ang, v.1 * Real.sin ang + v.2 * Real.cos ang)

/-- The containment test of `find_best_viewport_rotation`: the point,
expressed in the viewport's rotated frame, lies within the model-space
window `width × view_height`. -/
def vpContains (vp : Viewport) (p : Pt) : Prop :=
  let twistRad := vp.twistDeg * (Real.pi / 180)
  let w := vp.viewHeight * (vp.width / vp.height)
  let rel := rotateV (psub p vp.center) (-twistRad)
  |rel.1| ≤ w / 2 ∧ |rel.2| ≤ vp.viewHeight / 2

instance (vp : Viewport) (p : Pt) : Decidable (vpContains vp p) :=
  inferInstanceAs (Decidable (_ ∧ _))

/-- The best-candidate state of `find_best_viewport_rotation`. -/
structure VPBest where
  twist : ℝ
  minDist : Option ℝ
  found : Bool

/-- One iteration over a viewport: among containing viewports keep the
one whose centre is nearest. -/
def vpStep (p : Pt) (st : VPBest) (vp : Viewport) : VPBest :=
  if vpContains vp p then
    let d := vdist p vp.center
    if ltInf d st.minDist then ⟨vp.twistDeg, some d, true⟩ else st
  else st

/-- A default segment value for total indexing (`List.getD`) in
statements about the fixed-span calculator. -/
def fsegDflt : FixedSeg := ⟨(0, 0), (0, 0), (0, 0), 0, 0, 0⟩

/-- Embeds `DeviceLayoutEngine.find_best_viewport_rotation`: `-twist` of
the best containing viewport; when the point lies in no viewport it
prints a warning and returns `0.0` (NOT the road tangent). -/
def findBestViewportRotation (vps : List Viewport) (p : Pt) : ℝ :=
  let st := vps.foldl (vpStep p) ⟨0, none, false⟩
  if st.found then -st.twist else 0

end

/-! ## Theorems -/


/-- C3: evaluation at the failing input showing the tiling coverage
claim fails on the code: with margins `[10,10,20,30]`, scale 1000
(`model_width = 380`) and `total_length = 400`, `calculate_frames`
produces a single frame covering stations `[0, 380]` and terminates,
leaving the tail `(380, 400]` of the route uncovered. -/
theorem c3_tiling_gap :
    (calculateFrames ⟨10, 10, 20, 30, 1000⟩ (fun _ => ()) 400 strK0 3).map
        (List.map fun f => (f.startVal, f.endVal)) = some [(0, 380)] ∧ (380 : ℚ) < 400 := by
  constructor
  · simp [calculateFrames, framesLoop, viewportWidth, parseStationToM, pyUpper, containsC,
      splitOnC, pyIntParse, pyFloatParse, digitsToNat, digitVal, strK0]
    norm_num
  · norm_num

lemma framesLoop_nonterm {α : Type} (info : ℚ → α) (L mw step base scl : ℚ)
    (hmw : mw ≤ 0) (hL : 0 < L) (hstep : step ≤ 0) :
    ∀ fuel cur idx, cur ≤ mw / 2 → framesLoop info L mw step base scl fuel cur idx = none := by
  intro fuel
  induction fuel with
  | zero => intro cur idx _; rfl
  | succ n ih =>
    intro cur idx hcur
    have hcurL : cur < L := by
      have : cur ≤ 0 := le_trans hcur (by linarith)
      linarith
    have hre : min L (cur + mw / 2) < L := by
      have h1 : cur + mw / 2 < L := by
        have : cur + mw / 2 ≤ mw := by linarith
        linarith
      exact min_lt_iff.2 (Or.inr h1)
    show (if cur < L then _ else _) = none
    rw [if_pos hcurL, if_neg (not_le.2 hre), ih (cur + step) (idx + 1) (by linarith)]
    rfl

/-- C4 (amended): `calculate_frames` performs no validation of its
degenerate inputs: when `total_length ≤ 0` (and `model_width > 0`) it
returns an empty frame list normally, and when `model_width ≤ 0` with
`total_length > 0` its loop never terminates (no fuel suffices); in
neither case does it surface a caller-visible error. -/
theorem c4_degenerate_inputs {α : Type} (c : PlotCfg) (info : ℚ → α) (L : ℚ) (pk : PStr)
    (fuel : ℕ) :
    (0 < viewportWidth c * c.scale / 1000 → L ≤ 0 → 0 < fuel →
      calculateFrames c info L pk fuel = some []) ∧
    (viewportWidth c * c.scale / 1000 ≤ 0 → 0 < L →
      calculateFrames c info L pk fuel = none) := by
  constructor
  · intro hmw hL hfuel
    obtain ⟨n, rfl⟩ := Nat.exists_eq_succ_of_ne_zero (Nat.pos_iff_ne_zero.1 hfuel)
    show (if viewportWidth c * c.scale / 1000 / 2 < L then _ else _) = some []
    rw [if_neg (by push_neg; linarith)]
  · intro hmw hL
    exact framesLoop_nonterm info L _ _ _ _ hmw hL
      (by nlinarith) fuel _ 1 (le_refl _)

/-- C4 counterexample: at `total_length = 0` (a degenerate input for
which the claim demands a caller-visible error) `calculate_frames`
returns the empty frame list normally. -/
theorem c4_no_error_counterexample :
    calculateFrames ⟨10, 10, 20, 30, 1200⟩ (fun _ => ()) 0 strK0 3 = some [] := by
  show (if viewportWidth ⟨10, 10, 20, 30, 1200⟩ * 1200 / 1000 / 2 < (0:ℚ) then _ else _)
      = some []
  rw [if_neg (by norm_num [viewportWidth])]

/-- C4 witness: the amended theorem applied at concrete inputs. -/
theorem c4_degenerate_inputs_witness :
    calculateFrames ⟨10, 10, 20, 30, 1200⟩ (fun _ => ()) (-1) strK0 2 = some [] ∧
    calculateFrames ⟨10, 10, 20, 30, 0⟩ (fun _ => ()) 5 strK0 7 = none :=
  ⟨(c4_degenerate_inputs ⟨10, 10, 20, 30, 1200⟩ (fun _ => ()) (-1) strK0 2).1
      (by norm_num [viewportWidth]) (by norm_num) (by norm_num),
   (c4_degenerate_inputs ⟨10, 10, 20, 30, 0⟩ (fun _ => ()) 5 strK0 7).2
      (by norm_num [viewportWidth]) (by norm_num)⟩

lemma insertByLe_perm {α : Type} (le : α → α → Bool) (x : α) (l : List α) :
    (insertByLe le x l).Perm (x :: l) := by
  induction l with
  | nil => simp [insertByLe]
  | cons y ys ih =>
    by_cases h : le y x
    · simp only [insertByLe, if_pos h]
      exact (ih.cons y).trans (List.Perm.swap x y ys)
    · simp [insertByLe, if_neg h]

lemma stableSortBy_go_perm {α : Type} (le : α → α → Bool) (l acc : List α) :
    (l.foldl (fun a x => insertByLe le x a) acc).Perm (acc ++ l) := by
  induction l generalizing acc with
  | nil => simp
  | cons x xs ih =>
    simp only [List.foldl_cons]
    refine (ih (insertByLe le x acc)).trans ?_
    refine (List.Perm.append_right xs (insertByLe_perm le x acc)).trans ?_
    exact List.perm_middle.symm

lemma stableSortBy_perm {α : Type} (le : α → α → Bool) (l : List α) :
    (stableSortBy le l).Perm l := by
  simpa [stableSortBy] using stableSortBy_go_perm le l []

lemma rowsGo_perm (tol : ℚ) (row rest : List (ℕ × DxfEntity)) :
    (rowsGo tol row rest).Perm (row ++ rest) := by
  induction rest generalizing row with
  | nil => simpa [rowsGo] using stableSortBy_perm byAscX row
  | cons f fs ih =>
    by_cases h : |entityY (row.headD (0, .otherE 0)).2 - entityY f.2| ≤ tol
    · simp only [rowsGo, if_pos h]
      refine (ih (row ++ [f])).trans ?_
      simp
    · simp only [rowsGo, if_neg h]
      refine ((stableSortBy_perm byAscX row).append (ih [f])).trans ?_
      simp

lemma readingOrder_perm (l : List (ℕ × DxfEntity)) (tol : ℚ) :
    (readingOrder l tol).Perm l := by
  unfold readingOrder
  rcases hs : stableSortBy byDescY l with _ | ⟨f, rest⟩
  · have := stableSortBy_perm byDescY l
    rw [hs] at this
    simpa using this.symm
  · have h1 : (rowsGo tol [f] rest).Perm (f :: rest) := rowsGo_perm tol [f] rest
    have h2 := stableSortBy_perm byDescY l
    rw [hs] at h2
    exact h1.trans h2

/-- C9: the reading-order sort is a permutation of its input, and the
three items at `(0,100)`, `(50,100)`, `(0,50)` with tolerance 5 sort to
`[(0,100), (50,100), (0,50)]` (row one by ascending X, then row two). -/
theorem c9_reading_order :
    (∀ (l : List (ℕ × DxfEntity)) (tol : ℚ), (readingOrder l tol).Perm l) ∧
    (sortedFrames
        [.insertE (0, 100) [⟨['T', 'U', 'N', 'o'], ['x']⟩],
         .insertE (50, 100) [⟨['T', 'U', 'N', 'o'], ['y']⟩],
         .insertE (0, 50) [⟨['T', 'U', 'N', 'o'], ['z']⟩]] none 5).map (fun p => entityPos p.2)
      = [(0, 100), (50, 100), (0, 50)] := by
  refine ⟨readingOrder_perm, ?_⟩
  simp [sortedFrames, readingOrder, selectFrames, enumFrom, isFrameCandidate, isTunoTag, pyUpper,
    stableSortBy, insertByLe, byDescY, byAscX, rowsGo, entityY, entityX, entityPos]
  norm_num [rowsGo, stableSortBy, insertByLe, byAscX, entityY, entityX, entityPos]
-- generic list helpers
lemma list_ext_getD {α : Type} (d : α) :
    ∀ (l1 l2 : List α), l1.length = l2.length →
      (∀ j, j < l1.length → l1.getD j d = l2.getD j d) → l1 = l2 := by
  intro l1
  induction l1 with
  | nil => intro l2 hlen _; cases l2 <;> simp_all
  | cons a as ih =>
    intro l2 hlen h
    cases l2 with
    | nil => simp at hlen
    | cons b bs =>
      have h0 := h 0 (by simp)
      simp at h0
      have : as = bs := by
        refine ih bs (by simpa using hlen) ?_
        intro j hj
        have := h (j + 1) (by simpa using Nat.succ_lt_succ hj)
        simpa using this
      simp [h0, this]

lemma getD_set_self {α : Type} (d : α) :
    ∀ (l : List α) (i : ℕ) (a : α), i < l.length → (l.set i a).getD i d = a := by
  intro l
  induction l with
  | nil => simp
  | cons x xs ih =>
    intro i a hi
    cases i with
    | zero => simp
    | succ n => simpa using ih n a (by simpa using hi)

lemma getD_set_other {α : Type} (d : α) :
    ∀ (l : List α) (i j : ℕ) (a : α), i ≠ j → (l.set i a).getD j d = l.getD j d := by
  intro l
  induction l with
  | nil => simp
  | cons x xs ih =>
    intro i j a hij
    cases i with
    | zero => cases j with
      | zero => exact absurd rfl hij
      | succ m => simp
    | succ n => cases j with
      | zero => simp
      | succ m => simpa using ih n m a (fun h => hij (by rw [h]))

lemma enumFrom_length {α : Type} : ∀ (i : ℕ) (l : List α), (enumFrom i l).length = l.length := by
  intro i l
  induction l generalizing i with
  | nil => rfl
  | cons a as ih => simp [enumFrom, ih]

lemma enumFrom_map_fst {α : Type} :
    ∀ (i : ℕ) (l : List α), (enumFrom i l).map Prod.fst = List.range' i l.length := by
  intro i l
  induction l generalizing i with
  | nil => rfl
  | cons a as ih => simp [enumFrom, List.range', ih]

lemma enumFrom_mem {α : Type} (dE : α) :
    ∀ (l : List α) (i : ℕ) (p : ℕ × α), p ∈ enumFrom i l →
      i ≤ p.1 ∧ p.1 - i < l.length ∧ l.getD (p.1 - i) dE = p.2 := by
  intro l
  induction l with
  | nil => simp [enumFrom]
  | cons a as ih =>
    intro i p hp
    rcases (by simpa [enumFrom] using hp : p = (i, a) ∨ p ∈ enumFrom (i + 1) as) with h | h
    · subst h; simp
    · obtain ⟨h1, h2, h3⟩ := ih (i + 1) p h
      refine ⟨by omega, by simpa using by omega, ?_⟩
      have : p.1 - i = (p.1 - (i + 1)) + 1 := by omega
      rw [this]
      simpa using h3

lemma enumFrom_getD {α : Type} (dE : α) :
    ∀ (l : List α) (i j : ℕ), j < l.length →
      (enumFrom i l).getD j (0, dE) = (i + j, l.getD j dE) := by
  intro l
  induction l with
  | nil => simp
  | cons a as ih =>
    intro i j hj
    cases j with
    | zero => simp [enumFrom]
    | succ m =>
      have := ih (i + 1) m (by simpa using hj)
      simp only [enumFrom, List.getD_cons_succ]
      rw [this]
      congr 1
      omega

-- rankIn and TUNo helpers
lemma rankIn_none_of_not_mem :
    ∀ (sf : List (ℕ × DxfEntity)) (j : ℕ), j ∉ sf.map Prod.fst → rankIn sf j = none := by
  intro sf
  induction sf with
  | nil => simp [rankIn]
  | cons p rest ih =>
    intro j hj
    simp only [List.map_cons, List.mem_cons] at hj
    push_neg at hj
    have hne : ¬p.1 = j := fun h => hj.1 h.symm
    simp [rankIn, hne, ih j hj.2]

lemma rankIn_some_spec (dE : DxfEntity) :
    ∀ (sf : List (ℕ × DxfEntity)) (j k : ℕ), rankIn sf j = some k →
      k < sf.length ∧ (sf.getD k (0, dE)).1 = j := by
  intro sf
  induction sf with
  | nil => simp [rankIn]
  | cons p rest ih =>
    intro j k hk
    by_cases h : p.1 = j
    · simp only [rankIn, if_pos h] at hk
      obtain rfl : (0 : ℕ) = k := by simpa using hk
      simpa using h
    · simp only [rankIn, if_neg h] at hk
      rcases hr : rankIn rest j with _ | m
      · rw [hr] at hk; simp at hk
      · rw [hr] at hk
        obtain rfl : m + 1 = k := by simpa using hk
        obtain ⟨h1, h2⟩ := ih j m hr
        exact ⟨by simpa using Nat.succ_lt_succ h1, by simpa using h2⟩

lemma updateFirstTuno_isSome (txt : PStr) :
    ∀ (ats : List DxfAttrib), (updateFirstTuno txt ats).isSome = ats.any isTunoTag := by
  intro ats
  induction ats with
  | nil => simp [updateFirstTuno]
  | cons a as ih =>
    by_cases h : isTunoTag a
    · simp [updateFirstTuno, h]
    · simp [updateFirstTuno, h, ih]

lemma setTunoText_isSome (txt : PStr) (e : DxfEntity) :
    (setTunoText txt e).isSome = hasTunoE e := by
  cases e with
  | insertE pos ats => simp [setTunoText, hasTunoE, updateFirstTuno_isSome]
  | otherE p => simp [setTunoText, hasTunoE]

-- renumGo structural lemmas
lemma renumGo_len :
    ∀ (jobs : List (ℕ × DxfEntity)) (idx cnt : ℕ) (d : List DxfEntity),
      (renumGo idx cnt d jobs).2.length = d.length := by
  intro jobs
  induction jobs with
  | nil => simp [renumGo]
  | cons p rest ih =>
    intro idx cnt d
    rcases p with ⟨i, e⟩
    rcases hset : setTunoText (natChars idx) e with _ | e2
    · simp [renumGo, hset, ih]
    · simp [renumGo, hset, ih]

lemma renumGo_count :
    ∀ (jobs : List (ℕ × DxfEntity)) (idx cnt : ℕ) (d : List DxfEntity),
      (renumGo idx cnt d jobs).1 = cnt + (jobs.filter (fun p => hasTunoE p.2)).length := by
  intro jobs
  induction jobs with
  | nil => simp [renumGo]
  | cons p rest ih =>
    intro idx cnt d
    rcases p with ⟨i, e⟩
    rcases hset : setTunoText (natChars idx) e with _ | e2
    · have hh : hasTunoE e = false := by
        rw [← setTunoText_isSome (natChars idx) e, hset]; rfl
      simp [renumGo, hset, ih, hh]
    · have hh : hasTunoE e = true := by
        rw [← setTunoText_isSome (natChars idx) e, hset]; rfl
      simp only [renumGo, hset, ih, List.filter_cons, hh]
      simp
      omega

lemma renumGo_getD (dE : DxfEntity) :
    ∀ (jobs : List (ℕ × DxfEntity)) (idx cnt : ℕ) (d : List DxfEntity) (j : ℕ),
      (jobs.map Prod.fst).Nodup → (∀ p ∈ jobs, p.1 < d.length) →
      ((renumGo idx cnt d jobs).2).getD j dE =
        match rankIn jobs j with
        | some k => (setTunoText (natChars (idx + k)) ((jobs.getD k (0, dE)).2)).getD (d.getD j dE)
        | none => d.getD j dE := by
  intro jobs
  induction jobs with
  | nil => intro idx cnt d j _ _; simp [renumGo, rankIn]
  | cons p rest ih =>
    intro idx cnt d j hnd hlt
    rcases p with ⟨i, e⟩
    have hndr : (rest.map Prod.fst).Nodup := by
      simpa using hnd.of_cons
    have hinotin : i ∉ rest.map Prod.fst := by
      have := hnd
      simp only [List.map_cons, List.nodup_cons] at this
      exact this.1
    by_cases hj : i = j
    · subst hj
      have hrn : rankIn rest i = none := rankIn_none_of_not_mem rest i hinotin
      have hilen : i < d.length := hlt (i, e) (List.mem_cons_self _ _)
      rcases hset : setTunoText (natChars idx) e with _ | e2
      · rw [renumGo, hset]
        rw [ih (idx+1) cnt d i hndr (fun p hp => hlt p (List.mem_cons_of_mem _ hp))]
        simp only [hrn]
        simp [rankIn, hset]
      · rw [renumGo, hset]
        rw [ih (idx+1) (cnt+1) (d.set i e2) i hndr
          (fun p hp => by rw [List.length_set]; exact hlt p (List.mem_cons_of_mem _ hp))]
        simp only [hrn]
        rw [getD_set_self dE d i e2 hilen]
        simp [rankIn, hset]
    · rcases hset : setTunoText (natChars idx) e with _ | e2
      · rw [renumGo, hset]
        rw [ih (idx+1) cnt d j hndr (fun p hp => hlt p (List.mem_cons_of_mem _ hp))]
        rcases hr : rankIn rest j with _ | k
        · simp [rankIn, hj, hr]
        · simp only [rankIn, if_neg hj, hr, Option.map_some]
          have hik : idx + 1 + k = idx + (k + 1) := by omega
          simp [hik]
      · rw [renumGo, hset]
        rw [ih (idx+1) (cnt+1) (d.set i e2) j hndr
          (fun p hp => by rw [List.length_set]; exact hlt p (List.mem_cons_of_mem _ hp))]
        have hgd : (d.set i e2).getD j dE = d.getD j dE := getD_set_other dE d i j e2 hj
        rcases hr : rankIn rest j with _ | k
        · simp only [hr]
          rw [hgd]
          simp [rankIn, hj, hr]
        · simp only [rankIn, if_neg hj, hr, Option.map_some]
          rw [hgd]
          have hik : idx + 1 + k = idx + (k + 1) := by omega
          simp [hik]

lemma selectFrames_mem (dE : DxfEntity) (doc : List DxfEntity) (xr : Option ℚ)
    (p : ℕ × DxfEntity) (hp : p ∈ selectFrames doc xr) :
    p.1 < doc.length ∧ doc.getD p.1 dE = p.2 ∧ isFrameCandidate xr p.2 = true := by
  have h1 : p ∈ enumFrom 0 doc ∧ isFrameCandidate xr p.2 = true := by
    simpa [selectFrames] using List.mem_filter.1 hp
  obtain ⟨hm, hc⟩ := h1
  obtain ⟨_, h2, h3⟩ := enumFrom_mem dE doc 0 p hm
  exact ⟨by simpa using h2, by simpa using h3, hc⟩

lemma selectFrames_nodup_fst (doc : List DxfEntity) (xr : Option ℚ) :
    ((selectFrames doc xr).map Prod.fst).Nodup := by
  have hsub : (selectFrames doc xr).Sublist (enumFrom 0 doc) := List.filter_sublist _
  have : ((enumFrom 0 doc).map Prod.fst).Nodup := by
    rw [enumFrom_map_fst]
    exact List.nodup_range' _ _
  exact this.sublist (hsub.map Prod.fst)

lemma sortedFrames_perm (doc : List DxfEntity) (xr : Option ℚ) (tol : ℚ) :
    (sortedFrames doc xr tol).Perm (selectFrames doc xr) :=
  readingOrder_perm (selectFrames doc xr) tol

lemma sortedFrames_nodup_fst (doc : List DxfEntity) (xr : Option ℚ) (tol : ℚ) :
    ((sortedFrames doc xr tol).map Prod.fst).Nodup :=
  ((sortedFrames_perm doc xr tol).map Prod.fst).nodup_iff.2 (selectFrames_nodup_fst doc xr)

lemma sortedFrames_mem (dE : DxfEntity) (doc : List DxfEntity) (xr : Option ℚ) (tol : ℚ)
    (p : ℕ × DxfEntity) (hp : p ∈ sortedFrames doc xr tol) :
    p.1 < doc.length ∧ doc.getD p.1 dE = p.2 ∧ isFrameCandidate xr p.2 = true :=
  selectFrames_mem dE doc xr p ((sortedFrames_perm doc xr tol).mem_iff.1 hp)

lemma isFrameCandidate_hasTuno (xr : Option ℚ) (e : DxfEntity)
    (h : isFrameCandidate xr e = true) : hasTunoE e = true := by
  cases e with
  | insertE pos ats =>
    simp only [isFrameCandidate, Bool.and_eq_true] at h
    simpa [hasTunoE] using h.1.2
  | otherE q => simp [isFrameCandidate] at h

/-- C10: `renumber_and_save` returns the number of reading-order-sorted
frame entities, and rewrites the model space exactly as described by
`specRenumDoc`: position `j` receives `str(k+1)` in its first
`TUNo`-tagged attribute precisely when `j` is the rank-`k` entry of the
sorted frame list, and every other entity (and attribute) is kept
unchanged. -/
theorem c10_renumber_frame_effect (doc : List DxfEntity) (xr : Option ℚ) (tol : ℚ) :
    renumberAndSave doc xr tol =
      ((sortedFrames doc xr tol).length, specRenumDoc doc (sortedFrames doc xr tol)) := by
  set dE : DxfEntity := .otherE 0 with hdE
  set sf := sortedFrames doc xr tol with hsf
  have hnd : (sf.map Prod.fst).Nodup := sortedFrames_nodup_fst doc xr tol
  have hlt : ∀ p ∈ sf, p.1 < doc.length := fun p hp => (sortedFrames_mem dE doc xr tol p hp).1
  have hcount : (renumGo 1 0 doc sf).1 = sf.length := by
    rw [renumGo_count sf 1 0 doc]
    have : sf.filter (fun p => hasTunoE p.2) = sf := by
      apply List.filter_eq_self.2
      intro p hp
      exact isFrameCandidate_hasTuno xr p.2 (sortedFrames_mem dE doc xr tol p hp).2.2
    simp [this]
  have hlen : (renumGo 1 0 doc sf).2.length = (specRenumDoc doc sf).length := by
    rw [renumGo_len]
    simp [specRenumDoc, enumFrom_length]
  have hsnd : (renumGo 1 0 doc sf).2 = specRenumDoc doc sf := by
    apply list_ext_getD dE _ _ hlen
    intro j hj
    have hjdoc : j < doc.length := by rw [renumGo_len] at hj; exact hj
    rw [renumGo_getD dE sf 1 0 doc j hnd hlt]
    have hspec : (specRenumDoc doc sf).getD j dE =
        match rankIn sf j with
        | some k => (setTunoText (natChars (k + 1)) (doc.getD j dE)).getD (doc.getD j dE)
        | none => doc.getD j dE := by
      have hmap : (specRenumDoc doc sf).getD j dE =
          (match rankIn sf ((enumFrom 0 doc).getD j (0, dE)).1 with
           | some k => (setTunoText (natChars (k + 1)) ((enumFrom 0 doc).getD j (0, dE)).2).getD
               ((enumFrom 0 doc).getD j (0, dE)).2
           | none => ((enumFrom 0 doc).getD j (0, dE)).2) := by
        have hjl : j < (enumFrom 0 doc).length := by rw [enumFrom_length]; exact hjdoc
        simp only [specRenumDoc]
        rw [List.getD_eq_getElem _ _ (by simpa using hjl), List.getElem_map]
        rw [← List.getD_eq_getElem (enumFrom 0 doc) (0, dE) hjl]
      rw [hmap, enumFrom_getD dE doc 0 j hjdoc]
      simp
    rw [hspec]
    rcases hr : rankIn sf j with _ | k
    · simp
    · obtain ⟨hk, hkj⟩ := rankIn_some_spec dE sf j k hr
      have hmem : sf.getD k (0, dE) ∈ sf := by
        rw [List.getD_eq_getElem sf (0, dE) hk]
        exact List.getElem_mem hk
      have hval : doc.getD (sf.getD k (0, dE)).1 dE = (sf.getD k (0, dE)).2 :=
        (sortedFrames_mem dE doc xr tol _ hmem).2.1
      rw [hkj] at hval
      simp only [hval]
      have h1k : 1 + k = k + 1 := by omega
      rw [h1k]
  calc renumberAndSave doc xr tol = ((renumGo 1 0 doc sf).1, (renumGo 1 0 doc sf).2) := rfl
    _ = (sf.length, specRenumDoc doc sf) := by rw [hcount, hsnd]

-- digit character facts
lemma digitChar_isDigit {d : ℕ} (h : d < 10) : (digitChar d).isDigit = true := by
  interval_cases d <;> decide

lemma digitChar_toUpper {d : ℕ} (h : d < 10) : (digitChar d).toUpper = digitChar d := by
  interval_cases d <;> decide

lemma digitChar_ne_K {d : ℕ} (h : d < 10) : (digitChar d == 'K') = false := by
  interval_cases d <;> decide

lemma digitChar_ne_plus {d : ℕ} (h : d < 10) : (digitChar d == '+') = false := by
  interval_cases d <;> decide

lemma digitChar_ne_dot {d : ℕ} (h : d < 10) : (digitChar d == '.') = false := by
  interval_cases d <;> decide

lemma digitVal_digitChar {d : ℕ} (h : d < 10) : digitVal (digitChar d) = d := by
  interval_cases d <;> decide

lemma natCharsAux_succ (f m : ℕ) :
    natCharsAux (f + 1) (m + 1) = natCharsAux f ((m + 1) / 10) ++ [digitChar ((m + 1) % 10)] := rfl

/-- Every character of `natCharsAux` is a decimal digit character. -/
lemma natCharsAux_mem :
    ∀ (fuel n : ℕ) (c : Char), c ∈ natCharsAux fuel n → ∃ d, d < 10 ∧ c = digitChar d := by
  intro fuel
  induction fuel with
  | zero => intro n c hc; simp [natCharsAux] at hc
  | succ f ih =>
    intro n c hc
    cases n with
    | zero => simp [natCharsAux] at hc
    | succ m =>
      rw [natCharsAux_succ] at hc
      rcases List.mem_append.1 hc with h | h
      · exact ih _ c h
      · refine ⟨(m + 1) % 10, Nat.mod_lt _ (by norm_num), ?_⟩
        simpa using h

lemma natChars_mem {n : ℕ} {c : Char} (hc : c ∈ natChars n) :
    ∃ d, d < 10 ∧ c = digitChar d := by
  by_cases h : n = 0
  · subst h
    simp [natChars] at hc
    exact ⟨0, by norm_num, by simpa using hc⟩
  · rw [natChars, if_neg h] at hc
    exact natCharsAux_mem n n c hc

lemma natChars_ne_nil (n : ℕ) : natChars n ≠ [] := by
  by_cases h : n = 0
  · subst h; simp [natChars]
  · rw [natChars, if_neg h]
    cases n with
    | zero => exact absurd rfl h
    | succ m => simp [natCharsAux]

/-- `digitsToNat` run from an arbitrary accumulator over an append. -/
lemma natCharsAux_val :
    ∀ (fuel n : ℕ), n ≤ fuel → digitsToNat (natCharsAux fuel n) = n := by
  intro fuel
  induction fuel with
  | zero => intro n hn; interval_cases n; rfl
  | succ f ih =>
    intro n hn
    cases n with
    | zero => rfl
    | succ m =>
      rw [natCharsAux_succ]
      show List.foldl (fun a c => 10 * a + digitVal c) 0 (_ ++ [_]) = m + 1
      rw [List.foldl_append]
      have hdiv : (m + 1) / 10 ≤ f := by
        have h1 : (m + 1) / 10 < m + 1 := Nat.div_lt_self (Nat.succ_pos m) (by norm_num)
        omega
      have := ih ((m + 1) / 10) hdiv
      rw [digitsToNat] at this
      rw [this]
      simp only [List.foldl_cons, List.foldl_nil]
      rw [digitVal_digitChar (Nat.mod_lt _ (by norm_num))]
      omega

lemma digitsToNat_natChars (n : ℕ) : digitsToNat (natChars n) = n := by
  by_cases h : n = 0
  · subst h; rfl
  · rw [natChars, if_neg h]
    exact natCharsAux_val n n (le_refl n)

/-- Leading zeros do not change the numeric value. -/
lemma digitsToNat_replicate_zero (k : ℕ) (l : PStr) :
    digitsToNat (List.replicate k '0' ++ l) = digitsToNat l := by
  induction k with
  | zero => simp
  | succ m ih =>
    show digitsToNat ('0' :: (List.replicate m '0' ++ l)) = digitsToNat l
    rw [digitsToNat]
    simp only [List.foldl_cons]
    have : 10 * 0 + digitVal '0' = 0 := rfl
    rw [this]
    exact ih

lemma splitOnC_ne_nil (sep : Char) : ∀ l : PStr, splitOnC sep l ≠ [] := by
  intro l
  induction l with
  | nil => simp [splitOnC]
  | cons c rest ih =>
    rw [splitOnC]
    rcases h : splitOnC sep rest with _ | ⟨h1, t⟩
    · exact absurd h ih
    · by_cases hc : c = sep <;> simp [hc]

lemma splitOnC_no_sep (sep : Char) :
    ∀ l : PStr, (∀ c ∈ l, c ≠ sep) → splitOnC sep l = [l] := by
  intro l
  induction l with
  | nil => intro _; rfl
  | cons c rest ih =>
    intro h
    have hc : c ≠ sep := h c (List.mem_cons_self _ _)
    have hr : splitOnC sep rest = [rest] := ih (fun x hx => h x (List.mem_cons_of_mem _ hx))
    rw [splitOnC, hr]
    simp [hc]

lemma splitOnC_mid (sep : Char) :
    ∀ (a b : PStr), (∀ c ∈ a, c ≠ sep) →
      splitOnC sep (a ++ sep :: b) = a :: splitOnC sep b := by
  intro a
  induction a with
  | nil =>
    intro b _
    show splitOnC sep (sep :: b) = [] :: splitOnC sep b
    rw [splitOnC]
    rcases h : splitOnC sep b with _ | ⟨h1, t⟩
    · exact absurd h (splitOnC_ne_nil sep b)
    · simp
  | cons c rest ih =>
    intro b h
    have hc : c ≠ sep := h c (List.mem_cons_self _ _)
    have hr := ih b (fun x hx => h x (List.mem_cons_of_mem _ hx))
    show splitOnC sep (c :: (rest ++ sep :: b)) = (c :: rest) :: splitOnC sep b
    rw [splitOnC, hr]
    simp [hc]

/-- Characters of a zero-padded digit rendering are digit characters. -/
lemma padZeros3_mem {n : ℕ} {c : Char} (hc : c ∈ padZeros3 (natChars n)) :
    ∃ d, d < 10 ∧ c = digitChar d := by
  rcases List.mem_append.1 hc with h | h
  · exact ⟨0, by norm_num, by simpa using (List.eq_of_mem_replicate h)⟩
  · exact natChars_mem h

lemma digitList_map_toUpper {l : PStr} (h : ∀ c ∈ l, ∃ d, d < 10 ∧ c = digitChar d) :
    l.map Char.toUpper = l := by
  have : ∀ c ∈ l, Char.toUpper c = id c := by
    intro c hc
    obtain ⟨d, hd, rfl⟩ := h c hc
    simpa using digitChar_toUpper hd
  rw [List.map_congr_left this, List.map_id]

lemma digitList_filter_K {l : PStr} (h : ∀ c ∈ l, ∃ d, d < 10 ∧ c = digitChar d) :
    l.filter (fun c => !(c == 'K')) = l := by
  apply List.filter_eq_self.2
  intro c hc
  obtain ⟨d, hd, rfl⟩ := h c hc
  simp [digitChar_ne_K hd]

lemma digitList_ne_plus {l : PStr} (h : ∀ c ∈ l, ∃ d, d < 10 ∧ c = digitChar d) :
    ∀ c ∈ l, c ≠ '+' := by
  intro c hc
  obtain ⟨d, hd, rfl⟩ := h c hc
  have := digitChar_ne_plus hd
  intro hcontra
  rw [hcontra] at this
  simp at this

lemma digitList_ne_dot {l : PStr} (h : ∀ c ∈ l, ∃ d, d < 10 ∧ c = digitChar d) :
    ∀ c ∈ l, c ≠ '.' := by
  intro c hc
  obtain ⟨d, hd, rfl⟩ := h c hc
  have := digitChar_ne_dot hd
  intro hcontra
  rw [hcontra] at this
  simp at this

lemma digitList_all_digit {l : PStr} (h : ∀ c ∈ l, ∃ d, d < 10 ∧ c = digitChar d) :
    l.all Char.isDigit = true := by
  rw [List.all_eq_true]
  intro c hc
  obtain ⟨d, hd, rfl⟩ := h c hc
  exact digitChar_isDigit hd

/-- Parsing a well-formed `K<km>+<metres>` label recovers its value. -/
lemma parse_label (kn mn : ℕ) :
    parseStationToM ('K' :: natChars kn ++ '+' :: padZeros3 (natChars mn)) =
      (kn : ℚ) * 1000 + (mn : ℚ) := by
  set A := natChars kn with hA
  set B := padZeros3 (natChars mn) with hB
  have hAdig : ∀ c ∈ A, ∃ d, d < 10 ∧ c = digitChar d := fun c hc => natChars_mem hc
  have hBdig : ∀ c ∈ B, ∃ d, d < 10 ∧ c = digitChar d := fun c hc => padZeros3_mem hc
  have hupper : pyUpper ('K' :: A ++ '+' :: B) = 'K' :: A ++ '+' :: B := by
    show List.map Char.toUpper (('K' :: A) ++ ('+' :: B)) = ('K' :: A) ++ ('+' :: B)
    rw [List.map_append, List.map_cons, List.map_cons]
    rw [digitList_map_toUpper hAdig, digitList_map_toUpper hBdig]
    rfl
  have hfilter : List.filter (fun c => !(c == 'K')) ('K' :: A ++ '+' :: B) = A ++ '+' :: B := by
    show List.filter (fun c => !(c == 'K')) (('K' :: A) ++ ('+' :: B)) = A ++ ('+' :: B)
    rw [List.filter_append, List.filter_cons, List.filter_cons]
    simp only [show (!('K' == 'K')) = false from rfl, show (!('+' == 'K')) = true from rfl,
      Bool.false_eq_true, if_false, if_true]
    rw [digitList_filter_K hAdig, digitList_filter_K hBdig]
  have hcontains : containsC '+' (A ++ '+' :: B) = true := by
    simp [containsC]
  have hsplit : splitOnC '+' (A ++ '+' :: B) = A :: [B] := by
    rw [splitOnC_mid '+' A B (digitList_ne_plus hAdig)]
    rw [splitOnC_no_sep '+' B (digitList_ne_plus hBdig)]
  have hAint : pyIntParse A = some (kn : ℤ) := by
    rw [pyIntParse, if_pos ⟨by rw [hA]; exact natChars_ne_nil kn, digitList_all_digit hAdig⟩]
    rw [hA, digitsToNat_natChars]
  have hBne : B ≠ [] := by
    rw [hB, padZeros3]
    intro hcontra
    exact natChars_ne_nil mn (List.append_eq_nil.1 hcontra).2
  have hBfloat : pyFloatParse B = some (mn : ℚ) := by
    rw [pyFloatParse]
    rw [splitOnC_no_sep '.' B (digitList_ne_dot hBdig)]
    simp only []
    rw [if_pos ⟨hBne, digitList_all_digit hBdig⟩]
    rw [hB, padZeros3, digitsToNat_replicate_zero, digitsToNat_natChars]
  rw [parseStationToM]
  simp only [pyUpper] at hupper
  simp only [pyUpper, hupper, hfilter, hcontains, if_true, hsplit, hAint, hBfloat]
  push_cast
  ring

lemma pyRound_nonneg {q : ℚ} (hq : 0 ≤ q) : 0 ≤ pyRound q := by
  have hf : (0:ℤ) ≤ ⌊q⌋ := Int.floor_nonneg.2 hq
  rw [pyRound]
  split_ifs <;> omega

/-- C8: for every `x ≥ 0`, parsing the chainage label produced by
formatting `x` at the default precision 10 yields `round(x/10)*10`,
where `round` is Python's half-to-even rounding. -/
theorem c8_chainage_roundtrip (x : ℚ) (hx : 0 ≤ x) :
    parseStationToM (formatMToStation x 10) = ((pyRound (x / 10) : ℤ) : ℚ) * 10 := by
  have hrm0 : (0:ℤ) ≤ pyRound (x / 10) := pyRound_nonneg (by positivity)
  set rm : ℤ := pyRound (x / 10) with hrmdef
  set rq : ℚ := (rm : ℚ) * 10 with hrqdef
  set kz : ℤ := ⌊rq / 1000⌋ with hkzdef
  have hkz0 : 0 ≤ kz := by
    rw [hkzdef]
    apply Int.floor_nonneg.2
    positivity
  have hfloorle : (kz : ℚ) * 1000 ≤ rq := by
    have h1 : (kz : ℚ) ≤ rq / 1000 := Int.floor_le _
    linarith
  set mz : ℤ := rm * 10 - 1000 * kz with hmzdef
  have hmz0 : (0:ℤ) ≤ mz := by
    have : (0:ℚ) ≤ rq - (kz:ℚ) * 1000 := by linarith
    rw [hrqdef] at this
    have h2 : ((rm * 10 - 1000 * kz : ℤ) : ℚ) = (rm:ℚ) * 10 - 1000 * (kz:ℚ) := by push_cast; ring
    rw [hmzdef]
    have : (0:ℚ) ≤ ((rm * 10 - 1000 * kz : ℤ) : ℚ) := by rw [h2]; linarith
    exact_mod_cast this
  have hfd : pyFloorDiv rq 1000 = (kz : ℚ) := rfl
  have htr1 : pyTrunc ((kz : ℚ)) = kz := by
    rw [pyTrunc, if_pos (by exact_mod_cast hkz0)]
    exact Int.floor_intCast kz
  have hpm : pyMod rq 1000 = ((mz : ℤ) : ℚ) := by
    rw [pyMod, hmzdef, hrqdef]
    push_cast
    ring
  have htr2 : pyTrunc (((mz : ℤ) : ℚ)) = mz := by
    rw [pyTrunc, if_pos (by exact_mod_cast hmz0)]
    exact Int.floor_intCast mz
  have hic1 : intChars kz = natChars kz.toNat := by
    rw [intChars, if_neg (not_lt.2 hkz0)]
  have hic2 : intChars mz = natChars mz.toNat := by
    rw [intChars, if_neg (not_lt.2 hmz0)]
  have hformat : formatMToStation x 10 =
      'K' :: natChars kz.toNat ++ '+' :: padZeros3 (natChars mz.toNat) := by
    rw [formatMToStation]
    rw [← hrmdef, ← hrqdef, hfd, htr1, hpm, htr2, hic1, hic2]
  rw [hformat, parse_label]
  have hk : ((kz.toNat : ℕ) : ℚ) = (kz : ℚ) := by
    exact_mod_cast Int.toNat_of_nonneg hkz0
  have hm : ((mz.toNat : ℕ) : ℚ) = (mz : ℚ) := by
    exact_mod_cast Int.toNat_of_nonneg hmz0
  rw [hk, hm, hmzdef]
  push_cast
  ring


/-- C8 witness: the round trip evaluated at `x = 1453.2`. -/
theorem c8_chainage_roundtrip_witness :
    (0:ℚ) ≤ 1453.2 ∧
      parseStationToM (formatMToStation 1453.2 10) = ((pyRound (1453.2 / 10) : ℤ) : ℚ) * 10 :=
  ⟨by norm_num, c8_chainage_roundtrip 1453.2 (by norm_num)⟩


/-- C5 (amended): for every vertex sequence with at least two vertices
and every starting chainage, the fixed-span calculator assigns every
segment the uniform logical span 100 and start station
`base_chainage + i*100`, and `total_length` equals
`base_chainage + (segment count)*100` — the parsed starting chainage is
included, unlike the claim's `(n-1)*100`. -/
theorem c5_fixed_span (raw : List Pt) (pk : PKInput) (h2 : 2 ≤ raw.length) :
    (∀ s ∈ (mkFixedRoute raw pk).segments, s.logicSpan = 100) ∧
    (mkFixedRoute raw pk).segments.length = raw.length - 1 ∧
    (∀ i, i < raw.length - 1 →
      ((mkFixedRoute raw pk).segments.getD i fsegDflt).startStat
        = ((parsePkString pk : ℚ) : ℝ) + (i : ℝ) * 100) ∧
    (mkFixedRoute raw pk).totalLength
      = ((parsePkString pk : ℚ) : ℝ) + ((raw.length - 1 : ℕ) : ℝ) * 100 := by
  obtain ⟨m, hm⟩ : ∃ m, raw.length - 1 = m + 1 := ⟨raw.length - 2, by omega⟩
  refine ⟨?_, ?_, ?_, ?_⟩
  · intro s hs
    simp only [mkFixedRoute, fixedSegs, List.mem_map] at hs
    obtain ⟨i, _, rfl⟩ := hs
    rfl
  · simp [mkFixedRoute, fixedSegs]
  · intro i hi
    simp only [mkFixedRoute, fixedSegs]
    rw [List.getD_eq_getElem _ _ (by simpa using hi), List.getElem_map, List.getElem_range]
  · simp only [mkFixedRoute, fixedSegs]
    rw [hm, List.range_succ, List.map_append, List.map_singleton, List.getLast?_concat]
    simp only [Option.map_some', Option.getD_some]
    push_cast
    ring

/-- C5 witness: the amended theorem applied to a three-vertex route with
numeric starting chainage 7. -/
theorem c5_fixed_span_witness :
    2 ≤ ([((0:ℝ), 0), (3, 4), (3, 10)] : List Pt).length ∧
    ((∀ s ∈ (mkFixedRoute [((0:ℝ), 0), (3, 4), (3, 10)] (.num 7)).segments, s.logicSpan = 100) ∧
     (mkFixedRoute [((0:ℝ), 0), (3, 4), (3, 10)] (.num 7)).segments.length
       = ([((0:ℝ), 0), (3, 4), (3, 10)] : List Pt).length - 1 ∧
     (∀ i, i < ([((0:ℝ), 0), (3, 4), (3, 10)] : List Pt).length - 1 →
       ((mkFixedRoute [((0:ℝ), 0), (3, 4), (3, 10)] (.num 7)).segments.getD i fsegDflt).startStat
         = ((parsePkString (.num 7) : ℚ) : ℝ) + (i : ℝ) * 100) ∧
     (mkFixedRoute [((0:ℝ), 0), (3, 4), (3, 10)] (.num 7)).totalLength
       = ((parsePkString (.num 7) : ℚ) : ℝ)
           + ((([((0:ℝ), 0), (3, 4), (3, 10)] : List Pt).length - 1 : ℕ) : ℝ) * 100) :=
  ⟨by norm_num, c5_fixed_span [((0:ℝ), 0), (3, 4), (3, 10)] (.num 7) (by norm_num)⟩

/-- C5 counterexample: a two-vertex route with starting chainage
`"K2+500"` has `total_length = 2600`, not `(2-1)*100 = 100` as the claim
states. -/
theorem c5_total_length_counterexample :
    (mkFixedRoute [((0:ℝ), 0), (1, 0)] (.str ['K', '2', '+', '5', '0', '0'])).totalLength = 2600 ∧
    (2600 : ℝ) ≠ (2 - 1) * 100 := by
  constructor
  · have hp : parsePkString (.str ['K', '2', '+', '5', '0', '0']) = 2500 := by
      simp [parsePkString, pyUpper, containsC, splitOnC, pyFloatParse, digitsToNat, digitVal]
      norm_num
    simp only [mkFixedRoute, fixedSegs, hp]
    norm_num [List.range_succ]
  · norm_num

/-- C6: evaluation at the failing input: a device at `(0, 1/2)` on the
vertical route `(0,0)→(0,1)` (tangent `π/2` at its station 50) lies in
no viewport, and `find_best_viewport_rotation` returns the constant
`0.0` — not the tangent-based rotation `π/2` the claim (and the code's
own fallback warning message) promises. -/
theorem c6_viewport_fallback_is_zero :
    findBestViewportRotation [⟨(1000, 1000), 10, 0, 420, 297⟩] ((0:ℝ), 1/2) = 0 ∧
    getLayoutRotation (mkFixedRoute [((0:ℝ), 0), (0, 1)] (.num 0)) 50 = Real.pi / 2 ∧
    (0:ℝ) ≠ Real.pi / 2 := by
  refine ⟨?_, ?_, ?_⟩
  · have hnc : ¬ vpContains ⟨(1000, 1000), 10, 0, 420, 297⟩ ((0:ℝ), 1/2) := by
      simp only [vpContains, rotateV, psub]
      norm_num [Real.cos_zero, Real.sin_zero]
    simp only [findBestViewportRotation, List.foldl_cons, List.foldl_nil, vpStep, if_neg hnc]
    rfl
  · have hp : parsePkString (.num 0) = 0 := rfl
    simp only [getLayoutRotation, mkFixedRoute, fixedSegs, hp]
    norm_num [List.range_succ]
    rw [layoutRotationGo]
    rw [if_pos (by constructor <;> norm_num)]
    simp only [vangle, psub, atan2R]
    norm_num
  · exact ne_of_lt (by positivity)

lemma sqrtEval {a b : ℝ} (hb : 0 ≤ b) (h : b ^ 2 = a) : Real.sqrt a = b := by
  rw [← h, Real.sqrt_sq hb]

/-- C1: evaluation at the failing input: on the single-segment
arc-length route `(0,0)→(2,0)`, the forward query at station 1 returns
the on-route point `(1,0)`, but the legacy inverse query returns station
2 with offset 1 (it divides the dot product by `magnitude_xy`, the 2D
length, instead of the squared length its own comment specifies), so
`project(at(1).point).station = 2 ≠ 1`. -/
theorem c1_roundtrip_failure :
    getInfoAt [((0:ℝ), 0), (2, 0)] 1 = ((1, 0), 0) ∧
    legacyProjectPoint (legacySegments [((0:ℝ), 0), (2, 0)]) (1, 0) =
      ⟨2, some 1, .right⟩ ∧
    (2 : ℝ) ≠ 1 := by
  have h4 : Real.sqrt 4 = 2 := sqrtEval (by norm_num) (by norm_num)
  refine ⟨?_, ?_, by norm_num⟩
  · simp only [getInfoAt, cumDists, cumDistsFrom, vdist, psub, vlerp, padd, pscale, vangle,
      atan2R, breakIdx]
    norm_num [h4, Real.sqrt_one, Real.arctan_zero]
  · simp only [legacyProjectPoint, legacySegments, legacySegsFrom, List.foldl_cons,
      List.foldl_nil, legacyStep, initProj, magnitudeXY, psub, vdist, padd, pscale, dot2,
      cross2, ltInf]
    norm_num [h4, Real.sqrt_one]

/-- C2: on the straight horizontal route `(0,0)→(100,0)` the fixed-span
inverse query satisfies the claim — `(50,10)` projects to station 50,
offset 10, side Left and `(50,-10)` to station 50, offset 10, side
Right — but the legacy inverse query (also named by the claim) returns
station 100 for `(50,10)` because of its `magnitude_xy` slip. -/
theorem c2_side_determinism :
    fixedProjectPoint (mkFixedRoute [((0:ℝ), 0), (100, 0)] (.str strK0)).segments (50, 10)
      = some ⟨50, some 10, .left, some (50, 10)⟩ ∧
    fixedProjectPoint (mkFixedRoute [((0:ℝ), 0), (100, 0)] (.str strK0)).segments (50, -10)
      = some ⟨50, some 10, .right, some (50, -10)⟩ ∧
    (legacyProjectPoint (legacySegments [((0:ℝ), 0), (100, 0)]) (50, 10)).station = 100 := by
  have h100 : Real.sqrt 100 = 10 := sqrtEval (by norm_num) (by norm_num)
  have h10000 : Real.sqrt 10000 = 100 := sqrtEval (by norm_num) (by norm_num)
  have hp : parsePkString (.str strK0) = 0 := by
    simp [parsePkString, strK0, pyUpper, containsC, splitOnC, pyFloatParse, digitsToNat, digitVal]
  refine ⟨?_, ?_, ?_⟩
  · simp only [mkFixedRoute, fixedSegs, hp]
    norm_num [List.range_succ]
    simp only [fixedProjectPoint, List.foldl_cons, List.foldl_nil, Option.bind_some,
      fixedStep, initFProj, psub, padd, pscale, dot2, cross2, vdist, ltInf]
    norm_num [h100]
  · simp only [mkFixedRoute, fixedSegs, hp]
    norm_num [List.range_succ]
    simp only [fixedProjectPoint, List.foldl_cons, List.foldl_nil, Option.bind_some,
      fixedStep, initFProj, psub, padd, pscale, dot2, cross2, vdist, ltInf]
    norm_num [h100]
  · simp only [legacyProjectPoint, legacySegments, legacySegsFrom, List.foldl_cons,
      List.foldl_nil, legacyStep, initProj, magnitudeXY, psub, vdist, padd, pscale, dot2,
      cross2, ltInf]
    norm_num [h10000]

/-- C7 counterexample: on a fixed-span route whose first segment is
zero-length, the inverse query does not skip the segment: it reads the
never-assigned local `vec_pt` (a Python `UnboundLocalError`), so the
query does not complete without error. -/
theorem c7_zero_seg_counterexample :
    fixedProjectPoint (mkFixedRoute [((0:ℝ), 0), (0, 0), (1, 0)] (.num 0)).segments (5, 3)
      = none := by
  have hp : parsePkString (.num 0) = 0 := rfl
  simp only [mkFixedRoute, fixedSegs, hp]
  norm_num [List.range_succ]
  simp only [fixedProjectPoint, List.foldl_cons, List.foldl_nil, Option.bind_some,
    fixedStep, initFProj, psub, padd, pscale, dot2, cross2, vdist, ltInf]
  norm_num

lemma foldl_bind_none (target : Pt) :
    ∀ rest : List FixedSeg,
      rest.foldl (fun acc seg => acc.bind (fun st => fixedStep target st seg)) none = none := by
  intro rest
  induction rest with
  | nil => rfl
  | cons s ss ih => simpa using ih

lemma legacy_foldl_filter (target : Pt) :
    ∀ (segs : List LegacySeg) (st : ProjRes),
      segs.foldl (legacyStep target) st = (filterNonzeroSegs segs).foldl (legacyStep target) st := by
  intro segs
  induction segs with
  | nil => intro st; rfl
  | cons s rest ih =>
    intro st
    by_cases h : magnitudeXY s.vec = 0
    · have hstep : legacyStep target st s = st := by
        rw [legacyStep]
        simp only [if_pos h]
      rw [filterNonzeroSegs, if_pos h, List.foldl_cons, hstep, ih st]
    · rw [filterNonzeroSegs, if_neg h, List.foldl_cons, List.foldl_cons, ih (legacyStep target st s)]

/-- C7 (amended): the legacy inverse query does skip zero-length
segments (its result equals the projection over the nonzero-length
segments only), but the fixed-span inverse query does not skip them and
fails whenever the route's first segment has zero length. -/
theorem c7_zero_length_segments :
    (∀ (segs : List LegacySeg) (target : Pt),
      legacyProjectPoint segs target = legacyProjectPoint (filterNonzeroSegs segs) target) ∧
    (∀ (s : FixedSeg) (rest : List FixedSeg) (target : Pt), s.lenSq = 0 →
      fixedProjectPoint (s :: rest) target = none) := by
  constructor
  · intro segs target
    exact legacy_foldl_filter target segs initProj
  · intro s rest target hzero
    have hstep : fixedStep target initFProj s = none := by
      rw [fixedStep]
      simp only [if_pos hzero, initFProj, ltInf]
      norm_num
    show List.foldl _ ((some initFProj).bind (fun st => fixedStep target st s)) rest = none
    rw [Option.some_bind, hstep]
    exact foldl_bind_none target rest

/-- C7 witness: the amended theorem's fixed-span part applied to a
concrete one-segment route of zero length. -/
theorem c7_zero_length_segments_witness :
    fixedProjectPoint [⟨((0:ℝ), 0), (0, 0), (0, 0), 0, 0, 100⟩] (5, 3) = none :=
  c7_zero_length_segments.2 ⟨((0:ℝ), 0), (0, 0), (0, 0), 0, 0, 100⟩ [] (5, 3) rfl

end HighwayPE
